import Mathlib

set_option maxRecDepth 100000

/-!
Shallow embedding of the SCP flux-image encoder from `FloppyReader.py`
(class `SCPWriter`): byte-level serialization (file header, track offset
table, track headers, bitcell data) and the per-track processing routine
`loadtrack` (sample decoding, revolution segmentation, flux quantization).

Conventions of the embedding:
* the Python float times are modelled as exact rationals (`ℚ`);
* a byte string is a `List ℕ` whose elements are below 256;
* Python code that can raise an exception is modelled with `Option`
  (`none` = the call raises);
* `struct.pack` range checks are modelled faithfully: packing a value
  outside the range of the format character fails;
* `numpy.round` and Python `round` both round half to even, modelled by
  `roundHalfEven`.
-/

namespace FloppyReader

attribute [local semireducible] Rat.add Rat.mul Rat.inv Rat.sub

/-- number of tracks in a SCP file (`SCPWriter.__NTRACKS`). -/
def NTRACKS : ℕ := 168

/-- number of revolutions captured per track (`SCPWriter.__NREVS`). -/
def NREVS : ℕ := 2

/-- the SCP time resolution, 25 ns, as an exact rational number of seconds. -/
def RESOLUTION : ℚ := 25 / 10 ^ 9

/-- the sample rate hard-coded in `loadtrack` (20 MHz). -/
def SAMPLERATE : ℚ := 20000000

/-- round half to even, the tie-breaking rule of both Python `round` and
`numpy.round`. -/
def roundHalfEven (x : ℚ) : ℤ :=
  let f : ℤ := ⌊x⌋
  let r : ℚ := x - f
  if r < 1 / 2 then f
  else if 1 / 2 < r then f + 1
  else if f % 2 = 0 then f else f + 1

/-- `struct.pack` format `B`: one unsigned byte, raises when out of range. -/
def packU8 (v : ℕ) : Option (List ℕ) :=
  if v < 256 then some [v] else none

/-- `struct.pack` format `<L`: unsigned 32-bit little endian, raises when the
value is outside `[0, 2^32)`. -/
def packU32le (v : ℤ) : Option (List ℕ) :=
  if 0 ≤ v ∧ v < 4294967296 then
    some [v.toNat % 256, v.toNat / 256 % 256, v.toNat / 65536 % 256,
      v.toNat / 16777216 % 256]
  else none

/-- `struct.pack` format `>H`: unsigned 16-bit big endian, raises when the
value is outside `[0, 2^16)`. -/
def packU16be (v : ℤ) : Option (List ℕ) :=
  if 0 ≤ v ∧ v < 65536 then some [v.toNat / 256, v.toNat % 256] else none

/-- pack a list of values with format `>H` each (`pack(">%dH" % n, *vals)`):
fails as soon as one value is out of range. -/
def packU16List : List ℤ → Option (List ℕ)
  | [] => some []
  | v :: vs => do
    let b ← packU16be v
    let rest ← packU16List vs
    pure (b ++ rest)

/-- pack a list of values with format `<L` each (`pack("<%dL" % n, *vals)`). -/
def packU32List : List ℤ → Option (List ℕ)
  | [] => some []
  | v :: vs => do
    let b ← packU32le v
    let rest ← packU32List vs
    pure (b ++ rest)

/-- the state of a `SCPWriter` object:
* `imagetype` is the constructor argument;
* `trackdataMap` models the dict `__trackdata` (track index ↦ array of raw
  flux intervals in seconds);
* `trackduration` models the `__NTRACKS × __NREVS` float array
  `__trackduration` (seconds), zero-initialised;
* `tracklen` models the float array `__tracklen` (bitcell counts; the values
  are integral but may become negative, hence `ℤ`). -/
structure SCPWriter where
  imagetype : ℕ
  trackdataMap : List (ℕ × List ℚ)
  trackduration : ℕ → ℕ → ℚ
  tracklen : ℕ → ℕ → ℤ

/-- a freshly constructed `SCPWriter(imagetype)`. -/
def SCPWriter.init (imagetype : ℕ) : SCPWriter :=
  ⟨imagetype, [], fun _ _ => 0, fun _ _ => 0⟩

/-- Python `max(dict.keys())`: `none` models the `ValueError` raised on an
empty dict. -/
def maxKeys (w : SCPWriter) : Option ℕ :=
  match w.trackdataMap.map Prod.fst with
  | [] => none
  | k :: ks => some (ks.foldl max k)

/-- `SCPWriter.fileheader`: the 16-byte SCP header
`pack("<3sBBBBBBBBBL", b"SCP", 0x17, type, nrev, 0, max(keys), 1, 0, 0, 0, 0)`.
Raises (`none`) when the track dict is empty or a byte field is out of
range. -/
def fileheader (w : SCPWriter) : Option (List ℕ) := do
  let endtrack ← maxKeys w
  let tbyte ← packU8 w.imagetype
  let ebyte ← packU8 endtrack
  pure ([83, 67, 80, 23] ++ tbyte ++ [NREVS, 0] ++ ebyte ++
    [1, 0, 0, 0] ++ [0, 0, 0, 0])

/-- the revolution loop of `SCPWriter.trackheader`: for each revolution `k`
append `pack("<LLL", round(duration/25e-9), int(len), start)` and advance
`start` by `2 * int(len)`. -/
def trackheaderLoop (w : SCPWriter) (num : ℕ) :
    List ℕ → ℤ → Option (List ℕ)
  | [], _ => some []
  | k :: ks, start => do
    let d ← packU32le (roundHalfEven (w.trackduration num k / RESOLUTION))
    let l ← packU32le (w.tracklen num k)
    let s ← packU32le start
    let rest ← trackheaderLoop w num ks (start + 2 * w.tracklen num k)
    pure (d ++ l ++ s ++ rest)

/-- `SCPWriter.trackheader`: `"TRK"` + track number byte + one
`(duration, length, dataStart)` triple per revolution, `dataStart` starting
at `4 + 12*NREVS` and accumulating `2 * length` per revolution. -/
def trackheader (w : SCPWriter) (num : ℕ) : Option (List ℕ) := do
  let nbyte ← packU8 num
  let body ← trackheaderLoop w num (List.range NREVS) (4 + 12 * NREVS)
  pure ([84, 82, 75] ++ nbyte ++ body)

/-- the 25 ns quantization of `SCPWriter.trackdata`:
`np.round(intervals / 25e-9)`. -/
def quantize (xs : List ℚ) : List ℤ :=
  xs.map fun x => roundHalfEven (x / RESOLUTION)

/-- `SCPWriter.trackdata`: look the track up in the dict (KeyError = `none`
when absent), quantize to 25 ns units, pack as big-endian 16-bit values. -/
def trackdata (w : SCPWriter) (num : ℕ) : Option (List ℕ) := do
  let xs ← w.trackdataMap.lookup num
  packU16List (quantize xs)

/-- `len(trackdata(k)) + len(trackheader(k))` — the size of track `k`'s
serialized block, `none` when either part raises. -/
def trackBlockSize (w : SCPWriter) (k : ℕ) : Option ℕ := do
  let d ← trackdata w k
  let h ← trackheader w k
  pure (d.length + h.length)

/-- the loop of `SCPWriter.trackoffsettable`: walk the track indices with a
running absolute offset; a track whose block raises gets entry 0 (the bare
`except` in the source), a serializable one gets the current offset which
then advances by the block size. -/
def offsLoop (w : SCPWriter) : List ℕ → ℕ → List ℕ
  | [], _ => []
  | k :: ks, offs =>
    match trackBlockSize w k with
    | some sz => offs :: offsLoop w ks (offs + sz)
    | none => 0 :: offsLoop w ks offs

/-- `SCPWriter.trackoffsettable`: 168 offsets starting at
`len(fileheader()) + 168*4`, packed as `<168L`. -/
def trackoffsettable (w : SCPWriter) : Option (List ℕ) := do
  let fh ← fileheader w
  let entries := offsLoop w (List.range NTRACKS) (fh.length + NTRACKS * 4)
  packU32List (entries.map Int.ofNat)

/-- the bytes `saveimage` emits for track index `k` inside its loop:
`trackheader(k)` is written first, so if `trackdata(k)` then raises, the
header bytes are already in the file and the bare `except` moves on. -/
def trackWriteChunk (w : SCPWriter) (k : ℕ) : List ℕ :=
  match trackheader w k with
  | none => []
  | some h => h ++ (trackdata w k).getD []

/-- `SCPWriter.saveimage`: header, offset table, the per-track chunks for
`k in range(max(keys)+1)`, and the trailing timestamp (here a parameter,
`time.asctime()` in the source). `none` models an uncaught exception. -/
def saveimage (w : SCPWriter) (timestamp : List ℕ) : Option (List ℕ) := do
  let fh ← fileheader w
  let tbl ← trackoffsettable w
  let m ← maxKeys w
  pure (fh ++ tbl ++ ((List.range (m + 1)).map (trackWriteChunk w)).flatten
    ++ timestamp)

/-- one decoded sample of `loadtrack`'s record array `tr`: a time in seconds
and the index / read-data channel levels (0 or 1, stored as machine ints in
the source, hence `ℤ` so that `np.diff` can go negative). -/
structure DecodedSample where
  times : ℚ
  index : ℤ
  read_data : ℤ
deriving DecidableEq

/-- the decoding comprehension of `loadtrack`: each raw record
`(timestampCount, channelWord)` becomes
`(count / 20e6, (word & 2) >> 1, (word & 8) >> 3)`. -/
def decodeSamples (recs : List (ℤ × ℕ)) : List DecodedSample :=
  recs.map fun r =>
    ⟨(r.1 : ℚ) / SAMPLERATE, ((r.2 &&& 2) / 2 : ℕ), ((r.2 &&& 8) / 8 : ℕ)⟩

/-- `np.diff`: consecutive differences. -/
def npDiff {α : Type} [Sub α] (xs : List α) : List α :=
  (xs.zip xs.tail).map fun p => p.2 - p.1

/-- `np.where(xs == v)[0]`: the (strictly increasing) list of positions
holding `v`. -/
def npWhereEq (xs : List ℤ) (v : ℤ) : List ℕ :=
  (List.range xs.length).filter fun i => xs.getD i 0 = v

/-- the Python / numpy slice `tr[a : b+1]` (clamping like Python does). -/
def sliceIncl (tr : List DecodedSample) (a b : ℕ) : List DecodedSample :=
  (tr.drop a).take (b + 1 - a)

/-- Python `max` over a sequence; raises (`none`) on an empty one. -/
def pyMax : List ℚ → Option ℚ
  | [] => none
  | x :: xs => some (xs.foldl max x)

/-- Python `min` over a sequence; raises (`none`) on an empty one. -/
def pyMin : List ℚ → Option ℚ
  | [] => none
  | x :: xs => some (xs.foldl min x)

/-- pointwise update of a two-index array (`arr[i, j] = v`). -/
def update2 {α : Type} (f : ℕ → ℕ → α) (i j : ℕ) (v : α) : ℕ → ℕ → α :=
  fun a b => if a = i ∧ b = j then v else f a b

/-- Python dict assignment `d[k] = v`: overwrite the existing binding or
append a new one. -/
def dictInsert {α : Type} (k : ℕ) (v : α) :
    List (ℕ × α) → List (ℕ × α)
  | [] => [(k, v)]
  | (k2, v2) :: rest =>
    if k = k2 then (k, v) :: rest else (k2, v2) :: dictInsert k v rest

/-- the index-pulse positions of `loadtrack`:
`np.where(np.diff(tr.index) == -1)[0] + 1`. -/
def indexPulses (tr : List DecodedSample) : List ℕ :=
  (npWhereEq (npDiff (tr.map DecodedSample.index)) (-1)).map (· + 1)

/-- number of read-data falling edges in a window:
`np.count_nonzero(np.diff(win.read_data) == -1)`. -/
def countFalling (win : List DecodedSample) : ℕ :=
  (npDiff (win.map DecodedSample.read_data)).countP fun d => d = -1

/-- the revolution loop of `loadtrack`: for `k in range(NREVS)` slice
`tr[indexpulse[k] : indexpulse[k+1]+1]`, record `max(times) - min(times)`
and the falling-edge count. An out-of-range `indexpulse[k+1]` is the
IndexError the source hits when too few index pulses were found. -/
def revLoop (tr : List DecodedSample) (ip : List ℕ) (num : ℕ) :
    List ℕ → (ℕ → ℕ → ℚ) → (ℕ → ℕ → ℤ) →
    Option ((ℕ → ℕ → ℚ) × (ℕ → ℕ → ℤ))
  | [], dur, len => some (dur, len)
  | k :: ks, dur, len => do
    let a ← ip.get? k
    let b ← ip.get? (k + 1)
    let rev := sliceIncl tr a b
    let mx ← pyMax (rev.map DecodedSample.times)
    let mn ← pyMin (rev.map DecodedSample.times)
    revLoop tr ip num ks (update2 dur num k (mx - mn))
      (update2 len num k (countFalling rev))

/-- the flux-edge positions of `loadtrack`'s quantizer section:
`np.where(np.diff(win.read_data) == -1)[0] + 1`, i.e. the indices where
`read_data` has just gone low. -/
def fluxEdges (win : List DecodedSample) : List ℕ :=
  (npWhereEq (npDiff (win.map DecodedSample.read_data)) (-1)).map (· + 1)

/-- `SCPWriter.loadtrack` on already-parsed raw records: decode the samples,
find the index pulses, measure each revolution, shorten the first
revolution by one bitcell, and store the consecutive time differences at
the flux-edge positions of the full track window. `none` models an uncaught
exception (IndexError on missing index pulses). -/
def loadtrack (w : SCPWriter) (num : ℕ) (recs : List (ℤ × ℕ)) :
    Option SCPWriter := do
  let tr := decodeSamples recs
  let ip := indexPulses tr
  let dl ← revLoop tr ip num (List.range NREVS)
    w.trackduration w.tracklen
  let len2 := update2 dl.2 num 0 (dl.2 num 0 - 1)
  let trkstart ← ip.head?
  let trkstop ← ip.getLast?
  let win := sliceIncl tr trkstart trkstop
  let timesAtEdges := (fluxEdges win).map fun i =>
    (win.map DecodedSample.times).getD i 0
  pure ⟨w.imagetype, dictInsert num (npDiff timesAtEdges) w.trackdataMap,
    dl.1, len2⟩

/-! Spec-side helper notions used to state the properties. -/

/-- the little-endian byte quadruple of a (in-range) 32-bit value. -/
def u32leBytes (n : ℕ) : List ℕ :=
  [n % 256, n / 256 % 256, n / 65536 % 256, n / 16777216 % 256]

/-- the big-endian byte pair of a (in-range) 16-bit value. -/
def u16beBytes (n : ℕ) : List ℕ :=
  [n / 256, n % 256]

/-- decode a byte string into little-endian 32-bit values, four bytes per
entry. -/
def decodeU32s : List ℕ → List ℕ
  | b0 :: b1 :: b2 :: b3 :: rest =>
    (b0 + 256 * b1 + 65536 * b2 + 16777216 * b3) :: decodeU32s rest
  | _ => []

/-- the size of track `k`'s block, or 0 when the block cannot be
serialized. -/
def sizeOrZero (w : SCPWriter) (k : ℕ) : ℕ :=
  (trackBlockSize w k).getD 0

/-- the offset-table entry the walk over indices 0..167 assigns to track
`k`: 0 when the block cannot be serialized, otherwise the 688-byte preamble
(16-byte header plus 672-byte table) plus the sizes of all serializable
blocks with a smaller index. -/
def expectedEntry (w : SCPWriter) (k : ℕ) : ℕ :=
  if trackBlockSize w k = none then 0
  else 688 + (((List.range k).map (sizeOrZero w)).sum)

/-- the window of revolution `k`: samples from index pulse `k` to index
pulse `k+1` inclusive (the one-sample overlap of the source). -/
def revWindow (recs : List (ℤ × ℕ)) (k : ℕ) : List DecodedSample :=
  let tr := decodeSamples recs
  sliceIncl tr ((indexPulses tr).getD k 0) ((indexPulses tr).getD (k + 1) 0)

/-- the full track window: samples from the first to the last index pulse
inclusive. -/
def trackWindow (recs : List (ℤ × ℕ)) : List DecodedSample :=
  let tr := decodeSamples recs
  sliceIncl tr ((indexPulses tr).headD 0) ((indexPulses tr).getLastD 0)

/-- the raw flux intervals of a capture: the consecutive time differences
at the (shifted) read-data falling-edge positions of the full track
window. -/
def fluxIntervals (recs : List (ℤ × ℕ)) : List ℚ :=
  npDiff ((fluxEdges (trackWindow recs)).map fun i =>
    ((trackWindow recs).map DecodedSample.times).getD i 0)

/-! Concrete fixtures used by witnesses and counterexamples.

In every raw record `(t, word)` below, bit 1 of `word` is the index channel
and bit 3 the read-data channel, as decoded by `loadtrack`. -/

/-- a well-formed capture: index falling edges at samples 1, 8 and 15 (three
pulses, bounding `NREVS = 2` revolutions) and read-data falling edges at
samples 2, 4, 6, 9, 11 and 15. -/
def goodRecs : List (ℤ × ℕ) :=
  [(0, 2), (1, 8), (2, 0), (3, 8), (4, 0), (5, 8), (6, 0), (7, 2),
   (8, 8), (9, 0), (10, 8), (11, 0), (12, 0), (13, 0), (14, 10), (15, 0)]

/-- a blank-track capture: three index pulses but not a single read-data
edge. -/
def blankRecs : List (ℤ × ℕ) :=
  [(0, 2), (1, 0), (2, 2), (3, 0), (4, 2), (5, 0)]

/-- a capture with only two index falling edges — one short of the
`NREVS + 1 = 3` the source expects. -/
def shortRecs : List (ℤ × ℕ) :=
  [(0, 2), (1, 0), (2, 2), (3, 0)]

/-- a freshly constructed writer, image type 21 as in the source's main
script. -/
def wStart : SCPWriter := SCPWriter.init 21

/-- the writer state after loading `goodRecs` as track 0. -/
def w4 : SCPWriter := (loadtrack wStart 0 goodRecs).get (by decide)

/-- a directly populated writer: track 0 holds one 1 µs flux interval
(quantizing to 40), revolution durations 0.2 ms and 0, bitcell counts 1
and 1. -/
def wGood : SCPWriter :=
  ⟨21, [(0, [1 / 1000000])],
   fun n k => if n = 0 ∧ k = 0 then 1 / 5000 else 0,
   fun n k => if n = 0 ∧ (k = 0 ∨ k = 1) then 1 else 0⟩

/-- a writer whose track 0 holds a 2 ms flux interval: it quantizes to
80000, which does not fit 16 bits, so packing track 0's data raises. -/
def wOverflow : SCPWriter :=
  ⟨21, [(0, [2 / 1000])], fun _ _ => 0, fun _ _ => 0⟩

/-- a writer with an unserializable track 0 (16-bit overflow) and a good
track 1. -/
def wMixed : SCPWriter :=
  ⟨21, [(0, [2 / 1000]), (1, [1 / 1000000])], fun _ _ => 0, fun _ _ => 0⟩

/-! Helper lemmas. -/

theorem packU8_eq_some {v : ℕ} {b : List ℕ} :
    packU8 v = some b ↔ v < 256 ∧ b = [v] := by
  unfold packU8
  split <;> simp_all [eq_comm]

theorem packU32le_eq_some {v : ℤ} {b : List ℕ} :
    packU32le v = some b ↔
      (0 ≤ v ∧ v < 4294967296) ∧ b = u32leBytes v.toNat := by
  unfold packU32le u32leBytes
  split <;> simp_all [eq_comm]

theorem packU16be_eq_some {v : ℤ} {b : List ℕ} :
    packU16be v = some b ↔
      (0 ≤ v ∧ v < 65536) ∧ b = u16beBytes v.toNat := by
  unfold packU16be u16beBytes
  split <;> simp_all [eq_comm]

theorem le_foldl_max {α : Type} [LinearOrder α] :
    ∀ (l : List α) (a : α), a ≤ l.foldl max a
  | [], a => le_refl a
  | x :: xs, a => le_trans (le_max_left a x) (le_foldl_max xs (max a x))

theorem mem_le_foldl_max {α : Type} [LinearOrder α] :
    ∀ (l : List α) (a : α), ∀ x ∈ l, x ≤ l.foldl max a
  | _ :: xs, a, x, h => by
    rcases List.mem_cons.mp h with h | h
    · subst h
      exact le_trans (le_max_right a x) (le_foldl_max xs _)
    · exact mem_le_foldl_max xs _ x h

theorem foldl_max_mem {α : Type} [LinearOrder α] :
    ∀ (l : List α) (a : α), l.foldl max a = a ∨ l.foldl max a ∈ l
  | [], _ => Or.inl rfl
  | x :: xs, a => by
    rcases foldl_max_mem xs (max a x) with h | h
    · rcases max_choice a x with hm | hm
      · exact Or.inl (by rw [List.foldl_cons, h, hm])
      · exact Or.inr (by rw [List.foldl_cons, h, hm]; exact List.mem_cons_self _ _)
    · exact Or.inr (List.mem_cons_of_mem _ h)

theorem foldl_min_le_mem {α : Type} [LinearOrder α] :
    ∀ (l : List α) (a : α), ∀ x ∈ l, l.foldl min a ≤ x := by
  intro l a
  have h := mem_le_foldl_max (α := αᵒᵈ) l a
  exact h

theorem foldl_min_le {α : Type} [LinearOrder α] (l : List α) (a : α) :
    l.foldl min a ≤ a :=
  le_foldl_max (α := αᵒᵈ) l a

theorem foldl_min_mem {α : Type} [LinearOrder α] (l : List α) (a : α) :
    l.foldl min a = a ∨ l.foldl min a ∈ l :=
  foldl_max_mem (α := αᵒᵈ) l a

/-- looking up the key just inserted by a dict assignment. -/
theorem dictInsert_lookup {α : Type} (k : ℕ) (v : α) :
    ∀ (l : List (ℕ × α)), (dictInsert k v l).lookup k = some v
  | [] => by simp [dictInsert, List.lookup]
  | (k2, v2) :: rest => by
    by_cases h : k = k2
    · simp [dictInsert, h, List.lookup]
    · simp only [dictInsert, if_neg h, List.lookup,
        beq_eq_false_iff_ne.mpr h]
      exact dictInsert_lookup k v rest

theorem npDiff_cons_cons {α : Type} [Sub α] (x y : α) (r : List α) :
    npDiff (x :: y :: r) = (y - x) :: npDiff (y :: r) := rfl

theorem npDiff_length {α : Type} [Sub α] (xs : List α) :
    (npDiff xs).length = xs.length - 1 := by
  simp [npDiff, List.length_zip]

theorem npDiff_getD {α : Type} [Sub α] (d0 d : α) :
    ∀ (xs : List α) (j : ℕ), j + 1 < xs.length →
      (npDiff xs).getD j d0 = xs.getD (j + 1) d - xs.getD j d
  | [], j, h => by simp at h
  | [x], j, h => by simp at h
  | x :: y :: r, 0, h => by
    simp [npDiff_cons_cons]
  | x :: y :: r, j + 1, h => by
    have ih := npDiff_getD d0 d (y :: r) j (by
      simp only [List.length_cons] at h ⊢
      omega)
    simp only [npDiff_cons_cons, List.getD_cons_succ]
    exact ih

theorem packU16List_eq_some :
    ∀ {vs : List ℤ} {bs : List ℕ}, packU16List vs = some bs →
      bs = (vs.map fun v => u16beBytes v.toNat).flatten ∧
        bs.length = 2 * vs.length
  | [], bs, h => by
    rw [packU16List] at h
    simp only [Option.some.injEq] at h
    subst h
    simp
  | v :: vs, bs, h => by
    rw [packU16List] at h
    simp only [Option.bind_eq_bind, Option.pure_def, Option.bind_eq_some,
      packU16be_eq_some, Option.some.injEq] at h
    obtain ⟨b, ⟨hv, hb⟩, rest, hrest, hbs⟩ := h
    obtain ⟨h1, h2⟩ := packU16List_eq_some hrest
    subst hb hbs
    refine ⟨by rw [h1]; simp, ?_⟩
    simp only [List.length_append, h2, u16beBytes, List.length_cons,
      List.length_map, List.length_nil]
    omega

theorem packU32List_eq_some :
    ∀ {vs : List ℤ} {bs : List ℕ}, packU32List vs = some bs →
      bs.length = 4 * vs.length ∧ decodeU32s bs = vs.map Int.toNat
  | [], bs, h => by
    rw [packU32List] at h
    simp only [Option.some.injEq] at h
    subst h
    simp [decodeU32s]
  | v :: vs, bs, h => by
    rw [packU32List] at h
    simp only [Option.bind_eq_bind, Option.pure_def, Option.bind_eq_some,
      packU32le_eq_some, Option.some.injEq] at h
    obtain ⟨b, ⟨hv, hb⟩, rest, hrest, hbs⟩ := h
    obtain ⟨h1, h2⟩ := packU32List_eq_some hrest
    subst hb hbs
    have hlt : v.toNat < 4294967296 := by omega
    constructor
    · simp only [u32leBytes, List.length_append, List.length_cons,
        List.length_nil, h1, List.length_map]
      omega
    · show decodeU32s
        (v.toNat % 256 :: v.toNat / 256 % 256 :: v.toNat / 65536 % 256 ::
          v.toNat / 16777216 % 256 :: rest) = _
      rw [decodeU32s]
      have hc : v.toNat % 256 + 256 * (v.toNat / 256 % 256) +
          65536 * (v.toNat / 65536 % 256) +
          16777216 * (v.toNat / 16777216 % 256) = v.toNat := by
        omega
      simp [hc, h2]

/-- every successfully produced file header is 16 bytes long. -/
theorem fileheader_length {w : SCPWriter} {fh : List ℕ}
    (h : fileheader w = some fh) : fh.length = 16 := by
  rcases hm : maxKeys w with _ | m
  · rw [fileheader, hm] at h
    simp at h
  · rw [fileheader, hm] at h
    simp only [Option.bind_eq_bind, Option.pure_def, Option.some_bind,
      Option.bind_eq_some, packU8_eq_some, Option.some.injEq] at h
    obtain ⟨tb, ⟨htv, htb⟩, eb, ⟨hev, heb⟩, hfh⟩ := h
    subst htb heb
    rw [← hfh]
    rfl

/-! Claim theorems. -/

/-- C10: serializing an Image with no populated track fails: the file
header's end-track byte is `max` over the set of populated track keys, which
raises on an empty dict, so `fileheader` and with it `saveimage` raise. -/
theorem c10_empty_image_fails (w : SCPWriter) (ts : List ℕ)
    (h : w.trackdataMap = []) :
    fileheader w = none ∧ saveimage w ts = none := by
  have hm : maxKeys w = none := by simp [maxKeys, h]
  have hf : fileheader w = none := by simp [fileheader, hm]
  exact ⟨hf, by simp [saveimage, hf]⟩

theorem c10_empty_image_fails_witness :
    wStart.trackdataMap = [] ∧ fileheader wStart = none ∧
      saveimage wStart [] = none :=
  ⟨rfl, (c10_empty_image_fails wStart [] rfl).1,
    (c10_empty_image_fails wStart [] rfl).2⟩

/-- C3: for an Image with at least one populated track whose header
serializes, the file header is the fixed 16-byte structure: magic "SCP"
(83, 67, 80), version byte 0x17, the image-type byte, the revolution-count
byte, start track 0, end track = the highest populated track index, flags 1,
width, heads and resolution 0, and a checksum written as 0 (four zero
bytes of the 32-bit field). -/
theorem c3_fileheader_layout (w : SCPWriter) (m : ℕ) (fh : List ℕ)
    (hm : maxKeys w = some m) (hfh : fileheader w = some fh) :
    fh = [83, 67, 80, 23, w.imagetype, NREVS, 0, m, 1, 0, 0, 0, 0, 0, 0, 0]
    ∧ fh.length = 16
    ∧ m ∈ w.trackdataMap.map Prod.fst
    ∧ ∀ x ∈ w.trackdataMap.map Prod.fst, x ≤ m := by
  rw [fileheader, hm] at hfh
  simp only [Option.bind_eq_bind, Option.pure_def, Option.some_bind,
    Option.bind_eq_some, packU8_eq_some] at hfh
  obtain ⟨tb, ⟨htv, htb⟩, eb, ⟨hev, heb⟩, hsome⟩ := hfh
  subst htb; subst heb
  have hfh2 : fh =
      [83, 67, 80, 23, w.imagetype, NREVS, 0, m, 1, 0, 0, 0, 0, 0, 0, 0] := by
    have := hsome
    simp only [Option.some.injEq] at this
    rw [← this]
    simp
  refine ⟨hfh2, by rw [hfh2]; rfl, ?_, ?_⟩
  · rcases hkeys : w.trackdataMap.map Prod.fst with _ | ⟨k, ks⟩
    · rw [maxKeys, hkeys] at hm; simp at hm
    · rw [maxKeys, hkeys] at hm
      simp only [Option.some.injEq] at hm
      rcases foldl_max_mem ks k with hc | hc
      · rw [← hm, hc]; exact List.mem_cons_self _ _
      · rw [← hm]; exact List.mem_cons_of_mem _ hc
  · rcases hkeys : w.trackdataMap.map Prod.fst with _ | ⟨k, ks⟩
    · rw [maxKeys, hkeys] at hm; simp at hm
    · rw [maxKeys, hkeys] at hm
      simp only [Option.some.injEq] at hm
      intro x hx
      rcases List.mem_cons.mp hx with hx | hx
      · rw [← hm, hx]; exact le_foldl_max ks k
      · rw [← hm]; exact mem_le_foldl_max ks k x hx

theorem c3_fileheader_layout_witness :
    maxKeys wGood = some 0 ∧
      fileheader wGood =
        some [83, 67, 80, 23, 21, 2, 0, 0, 1, 0, 0, 0, 0, 0, 0, 0] ∧
      [83, 67, 80, 23, 21, 2, 0, 0, 1, 0, 0, 0, 0, 0, 0, 0] =
        [83, 67, 80, 23, wGood.imagetype, NREVS, 0, 0, 1, 0, 0, 0, 0, 0, 0, 0] :=
  ⟨rfl, rfl,
    (c3_fileheader_layout wGood 0
      [83, 67, 80, 23, 21, 2, 0, 0, 1, 0, 0, 0, 0, 0, 0, 0] rfl rfl).1.symm ▸ rfl⟩

/-- C9: serialization is deterministic up to the trailing timestamp: two
runs of `saveimage` on the same writer state agree on everything before the
timestamp bytes. -/
theorem c9_serialization_deterministic (w : SCPWriter)
    (ts1 ts2 o1 o2 : List ℕ)
    (h1 : saveimage w ts1 = some o1) (h2 : saveimage w ts2 = some o2) :
    o1.take (o1.length - ts1.length) = o2.take (o2.length - ts2.length) := by
  have key : ∀ (c ts o : List ℕ), c ++ ts = o →
      o.take (o.length - ts.length) = c := by
    intro c ts o h
    subst h
    rw [List.length_append, Nat.add_sub_cancel, List.take_left]
  rcases hfh : fileheader w with _ | fh
  · rw [saveimage, hfh] at h1
    simp only [Option.bind_eq_bind, Option.none_bind] at h1
    exact absurd h1 (by simp)
  rcases htb : trackoffsettable w with _ | tbl
  · rw [saveimage, hfh, htb] at h1
    simp only [Option.bind_eq_bind, Option.some_bind, Option.none_bind] at h1
    exact absurd h1 (by simp)
  rcases hmk : maxKeys w with _ | m
  · rw [saveimage, hfh, htb, hmk] at h1
    simp only [Option.bind_eq_bind, Option.some_bind, Option.none_bind] at h1
    exact absurd h1 (by simp)
  rw [saveimage, hfh, htb, hmk] at h1 h2
  simp only [Option.bind_eq_bind, Option.pure_def, Option.some_bind,
    Option.some.injEq] at h1 h2
  rw [key _ _ _ h1, key _ _ _ h2]

/-- the serialized image of `wGood` with timestamp `[1, 2]`. -/
def c9out1 : List ℕ := (saveimage wGood [1, 2]).get (by decide)

/-- the serialized image of `wGood` with timestamp `[9]`. -/
def c9out2 : List ℕ := (saveimage wGood [9]).get (by decide)

theorem c9_serialization_deterministic_witness :
    saveimage wGood [1, 2] = some c9out1 ∧ saveimage wGood [9] = some c9out2 ∧
      c9out1.take (c9out1.length - 2) = c9out2.take (c9out2.length - 1) := by
  have e1 : saveimage wGood [1, 2] = some c9out1 := (Option.some_get _).symm
  have e2 : saveimage wGood [9] = some c9out2 := (Option.some_get _).symm
  exact ⟨e1, e2,
    c9_serialization_deterministic wGood [1, 2] [9] c9out1 c9out2 e1 e2⟩

/-- C5 (code bug): on a capture with only two index falling edges — one
fewer than the `NREVS + 1 = 3` the source expects — `loadtrack` does not
recover with fewer revolutions: after printing its warning it evaluates
`indexpulse[k+1]` out of range, raising an IndexError that aborts the track
(modelled by `none`). -/
theorem c5_index_shortfall_crash :
    (indexPulses (decodeSamples shortRecs)).length = 2 ∧ NREVS + 1 = 3 ∧
      loadtrack wStart 0 shortRecs = none :=
  ⟨rfl, rfl, rfl⟩

/-- C6 (code bug): a present track holding a 2 ms flux interval quantizes
to 80000, which exceeds the 16-bit range; `pack(">H")` raises, the bare
`except` swallows it, and the track is silently dropped — offset-table
entry 0 and no bitcell bytes in the file (only the 28 orphan header bytes
`saveimage` has already written) — instead of being clamped and flagged. -/
theorem c6_overflow_track_dropped :
    quantize [2 / 1000] = [80000] ∧
      trackdata wOverflow 0 = none ∧
      (wOverflow.trackdataMap.lookup 0).isSome = true ∧
      (trackoffsettable wOverflow).map (fun t => t.take 4) =
        some [0, 0, 0, 0] ∧
      (saveimage wOverflow []).map List.length = some 716 :=
  ⟨rfl, rfl, rfl, rfl, rfl⟩

/-- C7 (code bug): a blank track (three index pulses, zero read-data
falling edges) is recorded in the dict with an empty interval sequence, but
the unconditional first-revolution decrement makes `tracklen[num, 0] = -1`;
packing that as `<L` raises inside `trackheader`, so the track gets
offset-table entry 0 and contributes no bytes to the file — it is dropped,
indistinguishable from an absent track, instead of serializing as a
present track with a zero-length bitcell stream. -/
theorem c7_blank_track_dropped :
    (loadtrack wStart 0 blankRecs).map (fun w => w.trackdataMap.lookup 0) =
        some (some []) ∧
      (loadtrack wStart 0 blankRecs).map (fun w => w.tracklen 0 0) =
        some (-1) ∧
      (loadtrack wStart 0 blankRecs).map (fun w => (trackheader w 0).isSome) =
        some false ∧
      (loadtrack wStart 0 blankRecs).map
          (fun w => (trackoffsettable w).map fun t => t.take 4) =
        some (some [0, 0, 0, 0]) ∧
      (loadtrack wStart 0 blankRecs).map
          (fun w => (saveimage w []).map List.length) =
        some (some 688) :=
  ⟨rfl, rfl, rfl, rfl, rfl⟩

/-- C1 (counterexample): in `wMixed`, track 0 is present (data recorded)
yet its offset-table entry is 0, and track 1's entry is 688 while the bytes
`saveimage` writes at file offset 688 are the orphan header of track 0
("TRK", 0) — track 1's block actually starts at offset 716. So `entry = 0`
does not coincide with absence, and a nonzero entry need not be the file
offset of that track's block. -/
theorem c1_offset_table_counterexample :
    (wMixed.trackdataMap.lookup 0).isSome = true ∧
      (trackoffsettable wMixed).map (fun t => (decodeU32s t).take 2) =
        some [0, 688] ∧
      (saveimage wMixed []).map (fun o => (o.drop 688).take 4) =
        some [84, 82, 75, 0] ∧
      (saveimage wMixed []).map (fun o => (o.drop 716).take 4) =
        some [84, 82, 75, 1] :=
  ⟨rfl, rfl, rfl, rfl⟩

/-- C2: a present track's serialized block starts with the 4-byte tag
"TRK" plus the track-index byte, then per revolution a little-endian 32-bit
triple (duration in 25 ns units, bitcell count, data-start byte offset
relative to the block start); the data start is `4 + 12 * NREVS = 28` for
revolution 0 and `28 + 2 * count₀` for revolution 1 (cumulative, 2 bytes
per bitcell); the bitcell stream follows as one big-endian 16-bit value per
quantized interval. -/
theorem c2_track_block_layout (w : SCPWriter) (num : ℕ) (h d : List ℕ)
    (xs : List ℚ)
    (hh : trackheader w num = some h) (hd : trackdata w num = some d)
    (hxs : w.trackdataMap.lookup num = some xs) :
    h = [84, 82, 75, num]
        ++ u32leBytes (roundHalfEven (w.trackduration num 0 / RESOLUTION)).toNat
        ++ u32leBytes (w.tracklen num 0).toNat
        ++ u32leBytes 28
        ++ u32leBytes (roundHalfEven (w.trackduration num 1 / RESOLUTION)).toNat
        ++ u32leBytes (w.tracklen num 1).toNat
        ++ u32leBytes (28 + 2 * w.tracklen num 0).toNat
      ∧ d = ((quantize xs).map fun v => u16beBytes v.toNat).flatten := by
  constructor
  · rw [trackheader] at hh
    rw [show List.range NREVS = [0, 1] from rfl] at hh
    simp only [trackheaderLoop, Option.bind_eq_bind, Option.pure_def,
      Option.bind_eq_some, packU8_eq_some, packU32le_eq_some,
      Option.some.injEq] at hh
    obtain ⟨nb, ⟨hnv, hnb⟩, body,
      ⟨db0, ⟨hd0r, hd0b⟩, lb0, ⟨hl0r, hl0b⟩, sb0, ⟨hs0r, hs0b⟩, tail1,
        ⟨db1, ⟨hd1r, hd1b⟩, lb1, ⟨hl1r, hl1b⟩, sb1, ⟨hs1r, hs1b⟩, tail2,
          htail2, htail1⟩,
        hbody⟩,
      hfinal⟩ := hh
    have e28 : (4 + 12 * (NREVS : ℤ)) = 28 := by decide
    rw [e28] at hs0b hs1b
    subst hnb hd0b hl0b hs0b hd1b hl1b hs1b
    subst htail2 htail1 hbody hfinal
    simp
  · rw [trackdata, hxs] at hd
    simp only [Option.bind_eq_bind, Option.some_bind] at hd
    exact (packU16List_eq_some hd).1

/-- the serialized track header of `wGood`'s track 0. -/
def c2hdr : List ℕ :=
  [84, 82, 75, 0, 64, 31, 0, 0, 1, 0, 0, 0, 28, 0, 0, 0,
   0, 0, 0, 0, 1, 0, 0, 0, 30, 0, 0, 0]

theorem c2_track_block_layout_witness :
    trackheader wGood 0 = some c2hdr ∧
      trackdata wGood 0 = some [0, 40] ∧
      wGood.trackdataMap.lookup 0 = some [1 / 1000000] ∧
      c2hdr = [84, 82, 75, 0]
          ++ u32leBytes
            (roundHalfEven (wGood.trackduration 0 0 / RESOLUTION)).toNat
          ++ u32leBytes (wGood.tracklen 0 0).toNat
          ++ u32leBytes 28
          ++ u32leBytes
            (roundHalfEven (wGood.trackduration 0 1 / RESOLUTION)).toNat
          ++ u32leBytes (wGood.tracklen 0 1).toNat
          ++ u32leBytes (28 + 2 * wGood.tracklen 0 0).toNat ∧
      [0, 40] =
        ((quantize [1 / 1000000]).map fun v => u16beBytes v.toNat).flatten := by
  have h1 : trackheader wGood 0 = some c2hdr := rfl
  have h2 : trackdata wGood 0 = some [0, 40] := rfl
  have h3 : wGood.trackdataMap.lookup 0 = some [1 / 1000000] := rfl
  have hc := c2_track_block_layout wGood 0 c2hdr [0, 40] [1 / 1000000] h1 h2 h3
  exact ⟨h1, h2, h3, hc.1, hc.2⟩

/-- the offset-walk of `trackoffsettable`, characterised entry by entry:
starting the walk at index `i` with the offset accumulated over `0..i-1`
produces exactly the expected entries. -/
theorem offsLoop_range' (w : SCPWriter) :
    ∀ (n i : ℕ),
      offsLoop w (List.range' i n)
          (688 + (((List.range i).map (sizeOrZero w)).sum))
        = (List.range' i n).map (expectedEntry w)
  | 0, i => by simp [offsLoop]
  | n + 1, i => by
    have hsum : ((List.range (i + 1)).map (sizeOrZero w)).sum
        = ((List.range i).map (sizeOrZero w)).sum + sizeOrZero w i := by
      rw [List.range_succ, List.map_append, List.sum_append]
      simp
    rw [List.range'_succ]
    rcases hsz : trackBlockSize w i with _ | sz
    · have hz : sizeOrZero w i = 0 := by simp [sizeOrZero, hsz]
      have ih := offsLoop_range' w n (i + 1)
      rw [hsum, hz] at ih
      simp only [Nat.add_zero] at ih
      simp only [offsLoop, hsz, List.map_cons]
      rw [ih]
      congr 1
      simp [expectedEntry, hsz]
    · have hz : sizeOrZero w i = sz := by simp [sizeOrZero, hsz]
      have ih := offsLoop_range' w n (i + 1)
      rw [hsum, hz, ← Nat.add_assoc] at ih
      simp only [offsLoop, hsz, List.map_cons]
      rw [ih]
      congr 1
      simp [expectedEntry, hsz]

/-- C1 (amended): a successfully serialized offset table is 168 little-
endian 32-bit entries; entry `k` is 0 iff track `k`'s block fails to
serialize (absence or a pack failure), and each other entry is the offset
assigned by the ascending walk: 688 bytes of preamble plus the sizes of the
serializable blocks before it — a contiguous, gap-free accounting. -/
theorem c1_offset_table_amended (w : SCPWriter) (tbl : List ℕ)
    (htbl : trackoffsettable w = some tbl) :
    tbl.length = 4 * NTRACKS
    ∧ decodeU32s tbl = (List.range NTRACKS).map (expectedEntry w)
    ∧ (∀ k, expectedEntry w k = 0 ↔ trackBlockSize w k = none)
    ∧ ∀ k, trackBlockSize w k ≠ none →
        expectedEntry w k = 688 + (((List.range k).map (sizeOrZero w)).sum) := by
  rcases hfh : fileheader w with _ | fh
  · rw [trackoffsettable, hfh] at htbl
    simp at htbl
  rw [trackoffsettable, hfh] at htbl
  simp only [Option.bind_eq_bind, Option.some_bind] at htbl
  rw [fileheader_length hfh] at htbl
  have hstart : 16 + NTRACKS * 4 = 688 := rfl
  rw [hstart] at htbl
  have hloop := offsLoop_range' w NTRACKS 0
  simp only [List.range_zero, List.map_nil, List.sum_nil, Nat.add_zero]
    at hloop
  rw [List.range_eq_range', hloop] at htbl
  obtain ⟨hl, hdec⟩ := packU32List_eq_some htbl
  refine ⟨?_, ?_, ?_, ?_⟩
  · rw [hl]
    simp [List.length_range']
  · rw [hdec, List.map_map, List.map_map, List.range_eq_range']
    simp [Function.comp_def]
  · intro k
    constructor
    · intro h0
      by_contra hne
      rw [expectedEntry, if_neg hne] at h0
      omega
    · intro hn
      simp [expectedEntry, hn]
  · intro k hn
    rw [expectedEntry, if_neg hn]

/-- the offset table of `wGood`: track 0 at offset 688, all other tracks
absent. -/
def c1tbl : List ℕ := [176, 2, 0, 0] ++ List.replicate 668 0

theorem c1_offset_table_amended_witness :
    trackoffsettable wGood = some c1tbl ∧
      (c1tbl.length = 4 * NTRACKS
        ∧ decodeU32s c1tbl = (List.range NTRACKS).map (expectedEntry wGood)
        ∧ (∀ k, expectedEntry wGood k = 0 ↔ trackBlockSize wGood k = none)
        ∧ ∀ k, trackBlockSize wGood k ≠ none →
            expectedEntry wGood k =
              688 + (((List.range k).map (sizeOrZero wGood)).sum)) := by
  have h : trackoffsettable wGood = some c1tbl := rfl
  exact ⟨h, c1_offset_table_amended wGood c1tbl h⟩

/-- C8: on a successful `loadtrack`, each revolution window `k` (bounded by
index pulses `k` and `k+1`, one-sample overlap included) is recorded with
duration `max(times) - min(times)` over the window and bitcell count equal
to the number of read-data falling edges inside the window — minus one for
revolution 0, the unconditional first-revolution adjustment. -/
theorem c8_revolution_metadata (w : SCPWriter) (num : ℕ)
    (recs : List (ℤ × ℕ)) (w' : SCPWriter) (k : ℕ)
    (h : loadtrack w num recs = some w') (hk : k < NREVS) :
    w'.trackduration num k =
        (pyMax ((revWindow recs k).map DecodedSample.times)).getD 0
          - (pyMin ((revWindow recs k).map DecodedSample.times)).getD 0
      ∧ w'.tracklen num k =
        (countFalling (revWindow recs k) : ℤ) - (if k = 0 then 1 else 0) := by
  rw [loadtrack] at h
  rw [show List.range NREVS = [0, 1] from rfl] at h
  simp only [revLoop, Option.bind_eq_bind, Option.pure_def,
    Option.bind_eq_some, Option.some.injEq] at h
  obtain ⟨dl, ⟨a0, ha0, b0, hb0, mx0, hmx0, mn0, hmn0,
    a1, ha1, b1, hb1, mx1, hmx1, mn1, hmn1, hdl⟩,
    ts, hts, te, hte, hw'⟩ := h
  subst hdl
  subst hw'
  have e0 : revWindow recs 0 = sliceIncl (decodeSamples recs) a0 b0 := by
    simp only [revWindow, List.getD_eq_get?, ha0, hb0, Option.getD_some]
  have e1 : revWindow recs 1 = sliceIncl (decodeSamples recs) a1 b1 := by
    simp only [revWindow, List.getD_eq_get?, ha1, hb1, Option.getD_some]
  have hk2 : k < 2 := hk
  interval_cases k
  · constructor
    · simp only [e0, hmx0, hmn0, Option.getD_some, update2]
      simp
    · simp only [e0, update2]
      simp
  · constructor
    · simp only [e1, hmx1, hmn1, Option.getD_some, update2]
      simp
    · simp only [e1, update2]
      simp

theorem c8_revolution_metadata_witness :
    loadtrack wStart 0 goodRecs = some w4 ∧ 0 < NREVS ∧
      w4.trackduration 0 0 = 7 / 20000000 ∧
      w4.tracklen 0 0 = 2 ∧
      (w4.trackduration 0 0 =
          (pyMax ((revWindow goodRecs 0).map DecodedSample.times)).getD 0
            - (pyMin ((revWindow goodRecs 0).map DecodedSample.times)).getD 0
        ∧ w4.tracklen 0 0 =
          (countFalling (revWindow goodRecs 0) : ℤ)
            - (if (0 : ℕ) = 0 then 1 else 0)) := by
  have h4 : loadtrack wStart 0 goodRecs = some w4 := (Option.some_get _).symm
  exact ⟨h4, by decide, by decide, by decide,
    c8_revolution_metadata wStart 0 goodRecs w4 0 h4 (by decide)⟩

/-- C4: on a successful `loadtrack` the stored interval sequence is the
consecutive differences of the time values at the flux-edge positions of
the full track window; the edge positions are exactly the read-level
falling edges shifted by +1 (the sample where the level is already low);
`trackdata` quantizes each interval as round(interval / 25 ns); and the
interval sequence is one element shorter than the list of flux edges found,
whenever at least one edge was found. -/
theorem c4_flux_quantizer (w : SCPWriter) (num : ℕ)
    (recs : List (ℤ × ℕ)) (w' : SCPWriter)
    (h : loadtrack w num recs = some w') :
    w'.trackdataMap.lookup num = some (fluxIntervals recs)
      ∧ fluxEdges (trackWindow recs) =
        ((List.range ((trackWindow recs).length - 1)).filter fun j =>
          ((trackWindow recs).map DecodedSample.read_data).getD (j + 1) 0 =
            ((trackWindow recs).map DecodedSample.read_data).getD j 0 - 1).map
          (· + 1)
      ∧ trackdata w' num =
        packU16List ((fluxIntervals recs).map fun x =>
          roundHalfEven (x / RESOLUTION))
      ∧ (fluxEdges (trackWindow recs) ≠ [] →
        (fluxIntervals recs).length + 1 =
          (fluxEdges (trackWindow recs)).length) := by
  rw [loadtrack] at h
  rw [show List.range NREVS = [0, 1] from rfl] at h
  simp only [revLoop, Option.bind_eq_bind, Option.pure_def,
    Option.bind_eq_some, Option.some.injEq] at h
  obtain ⟨dl, hrev, ts, hts, te, hte, hw'⟩ := h
  subst hw'
  have ewin : trackWindow recs = sliceIncl (decodeSamples recs) ts te := by
    simp only [trackWindow, List.headD_eq_head?_getD, List.getLastD_eq_getLast?,
      hts, hte, Option.getD_some]
  have hlook : (SCPWriter.trackdataMap
        ⟨w.imagetype,
          dictInsert num
            (npDiff
              ((fluxEdges (sliceIncl (decodeSamples recs) ts te)).map fun i =>
                ((sliceIncl (decodeSamples recs) ts te).map
                  DecodedSample.times).getD i 0))
            w.trackdataMap,
          dl.1, update2 dl.2 num 0 (dl.2 num 0 - 1)⟩).lookup num =
      some (fluxIntervals recs) := by
    rw [fluxIntervals, ewin]
    exact dictInsert_lookup num _ w.trackdataMap
  refine ⟨hlook, ?_, ?_, ?_⟩
  · rw [fluxEdges, npWhereEq]
    have hlen : (npDiff ((trackWindow recs).map DecodedSample.read_data)).length
        = (trackWindow recs).length - 1 := by
      rw [npDiff_length, List.length_map]
    rw [hlen]
    congr 1
    apply List.filter_congr
    intro j hj
    have hjlt : j + 1 < ((trackWindow recs).map DecodedSample.read_data).length := by
      rw [List.length_map]
      have := List.mem_range.mp hj
      omega
    rw [npDiff_getD 0 0 _ j hjlt]
    simp only [decide_eq_decide]
    omega
  · rw [trackdata, hlook]
    simp only [Option.bind_eq_bind, Option.some_bind]
    rfl
  · intro hne
    rw [fluxIntervals, npDiff_length, List.length_map]
    have := List.length_pos.mpr hne
    omega

theorem c4_flux_quantizer_witness :
    loadtrack wStart 0 goodRecs = some w4 ∧
      w4.trackdataMap.lookup 0 = some (fluxIntervals goodRecs) ∧
      fluxIntervals goodRecs =
        [1 / 10000000, 1 / 10000000, 3 / 20000000, 1 / 10000000,
          1 / 5000000] ∧
      (fluxEdges (trackWindow goodRecs)).length = 6 ∧
      (fluxIntervals goodRecs).map (fun x => roundHalfEven (x / RESOLUTION)) =
        [4, 4, 6, 4, 8] := by
  have h4 : loadtrack wStart 0 goodRecs = some w4 := (Option.some_get _).symm
  have hc := c4_flux_quantizer wStart 0 goodRecs w4 h4
  exact ⟨h4, hc.1, by decide, by decide, by decide⟩

end FloppyReader

